import Mathlib

/-!
Verification development for the Siamese tools header (`SiameseTools.h`).

The file embeds three components of the header shallowly in Lean:

* `PCGRandom` — the PCG pseudo-random generator (`Seed`, `Next`);
* `LightVector` — the small-buffer-optimized growable vector
  (`SetSize_NoCopy`, `SetSize_Copy`, `Append`, `Clear`, `GetSize`, `GetRef`);
* `WindowedMinMax` — the three-sample windowed running extremum estimator
  (`Reset`, `Update`, `GetBest`, `IsValid`, `Sample::TimeoutExpired`).

Machine integers are modelled as `Nat` with explicit reduction modulo
`2^64` (for `uint64_t`) or `2^32` (for `unsigned`) exactly where the C++
arithmetic can overflow.  Allocation is modelled by an explicit oracle: a
`Bool` saying whether the requested heap allocation succeeds, and a
function `Nat → α` giving the (uninitialized, hence arbitrary) contents of
a freshly allocated buffer.  The element type of `WindowedMinMax` is taken
to be `Int` and the comparison object `CompareT` is an explicit parameter
`cmp : Int → Int → Bool`; `WindowedMinCompare` and `WindowedMaxCompare`
are the two concrete instantiations from the header.
-/

namespace Siamese

/-- Modulus for `uint64_t` arithmetic. -/
def U64 : Nat := 2 ^ 64

/-- Modulus for `unsigned` (32-bit) arithmetic. -/
def U32 : Nat := 2 ^ 32

/-- Wrapping subtraction of `uint64_t` values, `(TimeT)(a - b)`. -/
def u64sub (a b : Nat) : Nat := (((a : Int) - (b : Int)) % (U64 : Int)).toNat

/-- Wrapping subtraction of `unsigned` values, `a - b` in 32 bits. -/
def u32sub (a b : Nat) : Nat := (((a : Int) - (b : Int)) % (U32 : Int)).toNat

/-! ## PCGRandom

`class PCGRandom` from the header: two `uint64_t` members `State` and
`Inc`, a `Seed(y, x)` member and a `Next()` member returning `uint32_t`.
-/

structure PCGRandom where
  State : Nat
  Inc : Nat
deriving DecidableEq

/-- One step of the generator: `uint32_t PCGRandom::Next()`.  Returns the
32-bit output together with the successor state. -/
def pcgNext (r : PCGRandom) : Nat × PCGRandom :=
  let oldstate := r.State
  let newState := (oldstate * 6364136223846793005 + r.Inc) % U64
  let xorshifted := (((oldstate >>> 18) ^^^ oldstate) >>> 27) % U32
  let rot := oldstate >>> 59
  let out := (xorshifted >>> rot) |||
    ((xorshifted <<< (((U32 - rot) % U32) &&& 31)) % U32)
  (out, { State := newState, Inc := r.Inc })

/-- State after one `Next()` call, discarding the output. -/
def pcgStep (r : PCGRandom) : PCGRandom := (pcgNext r).2

/-- The member `void PCGRandom::Seed(uint64_t y, uint64_t x)`:
`State = 0; Inc = (y << 1u) | 1u; Next(); State += x; Next();`. -/
def pcgSeed (y x : Nat) : PCGRandom :=
  let r0 : PCGRandom := { State := 0, Inc := ((y <<< 1) % U64) ||| 1 }
  let r1 := pcgStep r0
  let r2 : PCGRandom := { State := (r1.State + x) % U64, Inc := r1.Inc }
  pcgStep r2

/-- The k-th (0-based) output of `Next()` from a given state. -/
def pcgKth (r : PCGRandom) (k : Nat) : Nat := (pcgNext (pcgStep^[k] r)).1

/-! ## LightVector

`template<typename T> class LightVector` from the header.  The backing
store (both the 25-element `PreallocatedData` region and any heap buffer)
is modelled as a total function `Nat → α`; `Heap` records whether
`DataPtr` points at a heap allocation rather than `PreallocatedData`.
-/

structure LightVector (α : Type) where
  Size : Nat
  DataF : Nat → α
  Allocated : Nat
  Heap : Bool

/-- `kPreallocated = 25`. -/
def kPreallocated : Nat := 25

/-- The constructor: `DataPtr = &PreallocatedData[0]`, `Size = 0`,
`Allocated = kPreallocated`; `pre` gives the (indeterminate) initial
contents of `PreallocatedData`. -/
def lvInit {α : Type} (pre : Nat → α) : LightVector α :=
  { Size := 0, DataF := pre, Allocated := kPreallocated, Heap := false }

/-- The member `bool LightVector::SetSize_NoCopy(unsigned elements)`.
`alloc` tells whether `new(std::nothrow) T[newAllocated]` succeeds and
`fresh` gives the uninitialized contents of the fresh buffer. -/
def SetSize_NoCopy {α : Type} (alloc : Bool) (fresh : Nat → α)
    (elements : Nat) (lv : LightVector α) : Bool × LightVector α :=
  if lv.Allocated < elements then
    if alloc then
      (true, { Size := elements, DataF := fresh,
               Allocated := elements * 3 % U32 / 2, Heap := true })
    else (false, lv)
  else (true, { lv with Size := elements })

/-- The member `bool LightVector::SetSize_Copy(unsigned elements)`: as
`SetSize_NoCopy` but with `memcpy(newData, oldData, sizeof(T) * Size)`
before the old buffer is released. -/
def SetSize_Copy {α : Type} (alloc : Bool) (fresh : Nat → α)
    (elements : Nat) (lv : LightVector α) : Bool × LightVector α :=
  if lv.Allocated < elements then
    if alloc then
      (true, { Size := elements,
               DataF := fun i => if i < lv.Size then lv.DataF i else fresh i,
               Allocated := elements * 3 % U32 / 2, Heap := true })
    else (false, lv)
  else (true, { lv with Size := elements })

/-- The member `bool LightVector::Append(const T& rhs)`:
`newSize = Size + 1` (unsigned), `SetSize_Copy(newSize)`, then
`DataPtr[newSize - 1] = rhs` (index computed in `unsigned`). -/
def Append {α : Type} (alloc : Bool) (fresh : Nat → α) (rhs : α)
    (lv : LightVector α) : Bool × LightVector α :=
  if (SetSize_Copy alloc fresh ((lv.Size + 1) % U32) lv).1 then
    (true,
      { (SetSize_Copy alloc fresh ((lv.Size + 1) % U32) lv).2 with
        DataF := fun i =>
          if i = u32sub ((lv.Size + 1) % U32) 1 then rhs
          else (SetSize_Copy alloc fresh ((lv.Size + 1) % U32) lv).2.DataF i })
  else (false, (SetSize_Copy alloc fresh ((lv.Size + 1) % U32) lv).2)

/-- The member `void LightVector::Clear()`: `Size = 0`. -/
def Clear {α : Type} (lv : LightVector α) : LightVector α :=
  { lv with Size := 0 }

/-- The member `unsigned LightVector::GetSize() const`. -/
def GetSize {α : Type} (lv : LightVector α) : Nat := lv.Size

/-- The member `T& LightVector::GetRef(int index) const`, read at a
non-negative index. -/
def GetRef {α : Type} (lv : LightVector α) (index : Nat) : α :=
  lv.DataF index

/-- A sequence of `Append` calls, each with its own allocation oracle:
threads the vector through the list and conjoins the boolean results. -/
def runAppends {α : Type} (ops : List (Bool × (Nat → α) × α))
    (acc : Bool × LightVector α) : Bool × LightVector α :=
  ops.foldl
    (fun acc op =>
      let r := Append op.1 op.2.1 op.2.2 acc.2
      (acc.1 && r.1, r.2))
    acc

/-- `n` identical `Append (value 0, always-succeeding allocator)` calls on
an integer vector, conjoining the boolean results. -/
def appendZeros (n : Nat) (acc : Bool × LightVector Int) :
    Bool × LightVector Int :=
  match n with
  | 0 => acc
  | Nat.succ m =>
    appendZeros m
      (let r := Append true (fun _ => 0) 0 acc.2
       (acc.1 && r.1, r.2))

/-! ## WindowedMinMax

`template<typename T, class CompareT> class WindowedMinMax` from the
header, with `T = Int` and the comparison object passed explicitly.  The
member array `Sample Samples[3]` is modelled by the three fields `s0`,
`s1`, `s2` (for `Samples[0]`, `Samples[1]`, `Samples[2]`).
-/

/-- `WindowedMinCompare`: `x <= y`. -/
def cmpMin : Int → Int → Bool := fun x y => decide (x ≤ y)

/-- `WindowedMaxCompare`: `x >= y`. -/
def cmpMax : Int → Int → Bool := fun x y => decide (x ≥ y)

/-- `struct Sample`: a value and the timestamp of its collection. -/
structure Sample where
  Value : Int
  Timestamp : Nat
deriving DecidableEq

/-- The member `bool Sample::TimeoutExpired(TimeT now, TimeT timeout)`:
`(TimeT)(now - Timestamp) > timeout` in wrapping `uint64_t` arithmetic. -/
abbrev TimeoutExpired (s : Sample) (now timeout : Nat) : Prop :=
  u64sub now s.Timestamp > timeout

/-- The estimator state: `Sample Samples[kSampleCount]`, `kSampleCount = 3`. -/
structure WindowedMinMax where
  s0 : Sample
  s1 : Sample
  s2 : Sample
deriving DecidableEq

/-- The member `bool WindowedMinMax::IsValid() const`:
`Samples[0].Value != 0`. -/
abbrev IsValid (st : WindowedMinMax) : Prop := st.s0.Value ≠ 0

/-- The member `T WindowedMinMax::GetBest() const`: `Samples[0].Value`. -/
def GetBest (st : WindowedMinMax) : Int := st.s0.Value

/-- The member `void WindowedMinMax::Reset(const Sample sample)`:
`Samples[0] = Samples[1] = Samples[2] = sample`. -/
def Reset (sample : Sample) : WindowedMinMax :=
  { s0 := sample, s1 := sample, s2 := sample }

/-- The default-constructed estimator: all samples are `Sample(0, 0)`. -/
def wmmInit : WindowedMinMax := Reset { Value := 0, Timestamp := 0 }

/-- The insertion step of `Update`: `if (Compare(value, Samples[1].Value))
Samples[2] = Samples[1] = sample; else if (Compare(value, Samples[2].Value))
Samples[2] = sample;`. -/
def wmmInsert (cmp : Int → Int → Bool) (s : Sample) (st : WindowedMinMax) :
    WindowedMinMax :=
  if cmp s.Value st.s1.Value = true then { s0 := st.s0, s1 := s, s2 := s }
  else if cmp s.Value st.s2.Value = true then
    { s0 := st.s0, s1 := st.s1, s2 := s }
  else st

/-- The aging tail of `Update` (everything after the insertion step):
expiry of `Samples[0]` (with possible double expiry of `Samples[1]`), then
the quarter-window and half-window staleness rules. -/
def wmmAge (s : Sample) (t w : Nat) (st1 : WindowedMinMax) :
    WindowedMinMax :=
  if TimeoutExpired st1.s0 t w then
    if TimeoutExpired st1.s1 t w then { s0 := st1.s2, s1 := s, s2 := s }
    else { s0 := st1.s1, s1 := st1.s2, s2 := s }
  else if st1.s1.Value = st1.s0.Value ∧ TimeoutExpired st1.s1 t (w / 4) then
    { s0 := st1.s0, s1 := s, s2 := s }
  else if st1.s2.Value = st1.s1.Value ∧ TimeoutExpired st1.s2 t (w / 2) then
    { s0 := st1.s0, s1 := st1.s1, s2 := s }
  else st1

/-- The member `void WindowedMinMax::Update(T value, TimeT timestamp,
const TimeT windowLengthTime)`: reset branch, insertion step, aging tail. -/
def Update (cmp : Int → Int → Bool) (value : Int) (timestamp w : Nat)
    (st : WindowedMinMax) : WindowedMinMax :=
  if ¬ IsValid st ∨ cmp value st.s0.Value = true ∨
      TimeoutExpired st.s2 timestamp w then
    Reset { Value := value, Timestamp := timestamp }
  else
    wmmAge { Value := value, Timestamp := timestamp } timestamp w
      (wmmInsert cmp { Value := value, Timestamp := timestamp } st)

/-- Run a list of `(value, timestamp)` updates, left to right, with a
fixed comparison and window length. -/
def runUpdates (cmp : Int → Int → Bool) (w : Nat)
    (l : List (Int × Nat)) (st : WindowedMinMax) : WindowedMinMax :=
  l.foldl (fun s p => Update cmp p.1 p.2 w s) st

/-- A call on the estimator's public mutating interface: `Reset` (with an
arbitrary sample) or `Update` (with value, timestamp and window length). -/
inductive WmmOp : Type
  | reset : Sample → WmmOp
  | update : Int → Nat → Nat → WmmOp

/-- Apply one `WmmOp`. -/
def wmmStep (cmp : Int → Int → Bool) (st : WindowedMinMax) :
    WmmOp → WindowedMinMax
  | WmmOp.reset s => Reset s
  | WmmOp.update v t w => Update cmp v t w st

/-- Run a list of `Reset`/`Update` calls, left to right. -/
def runOps (cmp : Int → Int → Bool) (ops : List WmmOp)
    (st : WindowedMinMax) : WindowedMinMax :=
  ops.foldl (wmmStep cmp) st

/-- The ordering invariant of the three ranked samples: `Samples[0]` is at
least as extreme as `Samples[1]`, which is at least as extreme as
`Samples[2]`, under the configured comparison. -/
def Ordered (cmp : Int → Int → Bool) (st : WindowedMinMax) : Prop :=
  cmp st.s0.Value st.s1.Value = true ∧ cmp st.s1.Value st.s2.Value = true

/-- All three stored timestamps are at most `τ` (the time of the most
recent update). -/
def TsBounded (st : WindowedMinMax) (τ : Nat) : Prop :=
  st.s0.Timestamp ≤ τ ∧ st.s1.Timestamp ≤ τ ∧ st.s2.Timestamp ≤ τ

/-- Invariant of the min-seeking estimator during the scenario of a small
nonzero value `v` recorded at `t0` followed by strictly larger values:
the best sample is still `(v, t0)`; a backup whose value is still `v` is
untouched since the reset (and pins the third sample as well); backup
values are `v` or property-`O` values (`O` holds of the observed larger
run values); backup timestamps lie between `t0` and the last update time. -/
def ScenInv (v : Int) (t0 : Nat) (O : Int → Prop) (lastT : Nat)
    (st : WindowedMinMax) : Prop :=
  st.s0 = { Value := v, Timestamp := t0 } ∧
  (st.s1.Value = v → st.s1.Timestamp = t0 ∧
    st.s2 = { Value := v, Timestamp := t0 }) ∧
  (st.s2.Value = v → st.s2.Timestamp = t0) ∧
  (st.s1.Value = v ∨ O st.s1.Value) ∧
  (st.s2.Value = v ∨ O st.s2.Value) ∧
  t0 ≤ st.s1.Timestamp ∧ st.s1.Timestamp ≤ lastT ∧
  t0 ≤ st.s2.Timestamp ∧ st.s2.Timestamp ≤ lastT

/-! ## Basic lemmas -/

theorem u64sub_eq_sub {a b : Nat} (hba : b ≤ a) (ha : a < U64) :
    u64sub a b = a - b := by
  have h1 : ((a : Int) - (b : Int)) = ((a - b : Nat) : Int) := by
    omega
  have h2 : ((a - b : Nat) : Int) % (U64 : Int) = ((a - b : Nat) : Int) :=
    Int.emod_eq_of_lt (Int.natCast_nonneg _) (by exact_mod_cast
      (by omega : (a - b : Nat) < U64))
  rw [u64sub, h1, h2, Int.toNat_natCast]

theorem Update_reset_of_invalid (cmp : Int → Int → Bool) (v : Int)
    (t w : Nat) (st : WindowedMinMax) (h : ¬ IsValid st) :
    Update cmp v t w st = Reset { Value := v, Timestamp := t } := by
  simp only [Update, if_pos (Or.inl h)]

/-! ## Claim theorems -/

/-- C1: if the estimator is uninitialized, or the new value compares as
extreme-or-equal to the current best sample's value, or the third-ranked
sample's age relative to the new timestamp exceeds the window length, then
`Update(value, timestamp, windowLength)` leaves the estimator exactly in
the state with all three ranked samples equal to the new sample
`(value, timestamp)` — no other mutation. -/
theorem reset_branch_sets_all_samples (cmp : Int → Int → Bool) (v : Int)
    (t w : Nat) (st : WindowedMinMax)
    (h : ¬ IsValid st ∨ cmp v st.s0.Value = true ∨ TimeoutExpired st.s2 t w) :
    Update cmp v t w st =
      { s0 := { Value := v, Timestamp := t },
        s1 := { Value := v, Timestamp := t },
        s2 := { Value := v, Timestamp := t } } := by
  simp only [Update, if_pos h, Reset]

/-- C1 witness: on the uninitialized estimator, `Update(5, 0, 10)` takes
the reset branch and all three samples become `(5, 0)`. -/
theorem reset_branch_witness :
    Update cmpMin 5 0 10 wmmInit =
      { s0 := { Value := 5, Timestamp := 0 },
        s1 := { Value := 5, Timestamp := 0 },
        s2 := { Value := 5, Timestamp := 0 } } :=
  reset_branch_sets_all_samples cmpMin 5 0 10 wmmInit (Or.inl (by decide))

/-- C2: in an `Update` call that does not take the reset branch, if after
the insertion step the best sample has expired, then the call returns the
promoted state — second promoted to best (with the third sliding up and
the new sample becoming third), unless the second has also expired, in
which case the third is promoted to best and the new sample becomes
second (and also third) — and no further aging rules are applied. -/
theorem best_expiry_promotion (cmp : Int → Int → Bool) (v : Int) (t w : Nat)
    (st : WindowedMinMax) (h1 : IsValid st)
    (h2 : cmp v st.s0.Value = false)
    (h3 : ¬ TimeoutExpired st.s2 t w)
    (h4 : TimeoutExpired
      (wmmInsert cmp { Value := v, Timestamp := t } st).s0 t w) :
    Update cmp v t w st =
      (if TimeoutExpired
          (wmmInsert cmp { Value := v, Timestamp := t } st).s1 t w then
        { s0 := (wmmInsert cmp { Value := v, Timestamp := t } st).s2,
          s1 := { Value := v, Timestamp := t },
          s2 := { Value := v, Timestamp := t } }
      else
        { s0 := (wmmInsert cmp { Value := v, Timestamp := t } st).s1,
          s1 := (wmmInsert cmp { Value := v, Timestamp := t } st).s2,
          s2 := { Value := v, Timestamp := t } }) := by
  have hcond : ¬ (¬ IsValid st ∨ cmp v st.s0.Value = true ∨
      TimeoutExpired st.s2 t w) := by
    intro hor
    rcases hor with h | h | h
    · exact h h1
    · rw [h2] at h
      exact Bool.false_ne_true h
    · exact h3 h
  rw [Update, if_neg hcond, wmmAge, if_pos h4]

/-- C2 witness: with best `(1,0)` and backups `(7,30)` at window length
100, the call `Update(9, 101, 100)` expires the best sample only and
promotes the second, the new sample becoming third. -/
theorem best_expiry_promotion_witness :
    Update cmpMin 9 101 100
        { s0 := { Value := 1, Timestamp := 0 },
          s1 := { Value := 7, Timestamp := 30 },
          s2 := { Value := 7, Timestamp := 30 } } =
      { s0 := { Value := 7, Timestamp := 30 },
        s1 := { Value := 7, Timestamp := 30 },
        s2 := { Value := 9, Timestamp := 101 } } := by
  rw [best_expiry_promotion cmpMin 9 101 100 _ (by decide) (by decide)
    (by decide) (by decide)]
  decide

/-- C4: whenever `SetSize_NoCopy`, `SetSize_Copy` or `Append` returns
`false` (allocation failure), the vector's entire observable state —
element count, capacity, active data pointer and every stored element
value — is unchanged; the failure is visible only in the boolean result. -/
theorem alloc_failure_leaves_state {α : Type} (alloc : Bool)
    (fresh : Nat → α) (n : Nat) (x : α) (lv : LightVector α) :
    ((SetSize_NoCopy alloc fresh n lv).1 = false →
      (SetSize_NoCopy alloc fresh n lv).2 = lv) ∧
    ((SetSize_Copy alloc fresh n lv).1 = false →
      (SetSize_Copy alloc fresh n lv).2 = lv) ∧
    ((Append alloc fresh x lv).1 = false →
      (Append alloc fresh x lv).2 = lv) := by
  have hno : (SetSize_NoCopy alloc fresh n lv).1 = false →
      (SetSize_NoCopy alloc fresh n lv).2 = lv := by
    intro h
    by_cases hg : lv.Allocated < n
    · cases alloc with
      | true => simp [SetSize_NoCopy, hg] at h
      | false => simp [SetSize_NoCopy, hg]
    · simp [SetSize_NoCopy, hg] at h
  have hco : (SetSize_Copy alloc fresh n lv).1 = false →
      (SetSize_Copy alloc fresh n lv).2 = lv := by
    intro h
    by_cases hg : lv.Allocated < n
    · cases alloc with
      | true => simp [SetSize_Copy, hg] at h
      | false => simp [SetSize_Copy, hg]
    · simp [SetSize_Copy, hg] at h
  refine ⟨hno, hco, ?_⟩
  intro h
  by_cases hr : (SetSize_Copy alloc fresh ((lv.Size + 1) % U32) lv).1 = true
  · simp [Append, hr] at h
  · have hfalse : (SetSize_Copy alloc fresh ((lv.Size + 1) % U32) lv).1
        = false := by
      simpa using hr
    have h2 : (SetSize_Copy alloc fresh ((lv.Size + 1) % U32) lv).2 = lv := by
      by_cases hg : lv.Allocated < (lv.Size + 1) % U32
      · cases alloc with
        | true => simp [SetSize_Copy, hg] at hfalse
        | false => simp [SetSize_Copy, hg]
      · simp [SetSize_Copy, hg] at hfalse
    simp [Append, hfalse, h2]

/-- C4 witness: a failing `SetSize_NoCopy(30)` on a fresh vector (which
must grow past the preallocated 25 elements) leaves the vector equal to
its prior state. -/
theorem alloc_failure_witness :
    (SetSize_NoCopy false (fun _ => (0 : Int)) 30
        (lvInit fun _ => (0 : Int))).2 = lvInit fun _ => (0 : Int) :=
  (alloc_failure_leaves_state false (fun _ => (0 : Int)) 30 0
    (lvInit fun _ => (0 : Int))).1 rfl

/-- C10: PCGRandom is fully deterministic given its seed pair: two
instances each seeded via `Seed(y, x)` produce identical `Next()` output
sequences, and the k-th output is a function of `(y, x, k)` alone. -/
theorem pcg_deterministic (y x : Nat) (hy : y < U64) (hx : x < U64)
    (a b : PCGRandom) (ha : a = pcgSeed y x) (hb : b = pcgSeed y x)
    (k : Nat) :
    pcgKth a k = pcgKth b k ∧ pcgKth a k = pcgKth (pcgSeed y x) k := by
  subst ha
  subst hb
  exact ⟨rfl, rfl⟩

/-- C10 witness: two instances seeded with `(1, 2)` agree on output 0. -/
theorem pcg_deterministic_witness :
    pcgKth (pcgSeed 1 2) 0 = pcgKth (pcgSeed 1 2) 0 ∧
    pcgKth (pcgSeed 1 2) 0 = pcgKth (pcgSeed 1 2) 0 :=
  pcg_deterministic 1 2 (by decide) (by decide)
    (pcgSeed 1 2) (pcgSeed 1 2) rfl rfl 0

/-! ## LightVector lemmas -/

theorem u32sub_eq_sub {a b : Nat} (hba : b ≤ a) (ha : a < U32) :
    u32sub a b = a - b := by
  have h1 : ((a : Int) - (b : Int)) = ((a - b : Nat) : Int) := by
    omega
  have h2 : ((a - b : Nat) : Int) % (U32 : Int) = ((a - b : Nat) : Int) :=
    Int.emod_eq_of_lt (Int.natCast_nonneg _) (by exact_mod_cast
      (by omega : (a - b : Nat) < U32))
  rw [u32sub, h1, h2, Int.toNat_natCast]

theorem SetSize_Copy_size {α : Type} {alloc : Bool} {fresh : Nat → α}
    {n : Nat} {lv : LightVector α}
    (h : (SetSize_Copy alloc fresh n lv).1 = true) :
    (SetSize_Copy alloc fresh n lv).2.Size = n := by
  by_cases hg : lv.Allocated < n
  · cases alloc with
    | true => simp [SetSize_Copy, hg]
    | false => simp [SetSize_Copy, hg] at h
  · simp [SetSize_Copy, hg]

theorem SetSize_Copy_keep {α : Type} (alloc : Bool) (fresh : Nat → α)
    (n : Nat) (lv : LightVector α) :
    ∀ i, i < lv.Size →
      (SetSize_Copy alloc fresh n lv).2.DataF i = lv.DataF i := by
  intro i hi
  by_cases hg : lv.Allocated < n
  · cases alloc with
    | true => simp [SetSize_Copy, hg, hi]
    | false => simp [SetSize_Copy, hg]
  · simp [SetSize_Copy, hg]

theorem Append_success {α : Type} (alloc : Bool) (fresh : Nat → α) (x : α)
    (lv : LightVector α) (h : (Append alloc fresh x lv).1 = true) :
    (Append alloc fresh x lv).2.Size = (lv.Size + 1) % U32 ∧
    (Append alloc fresh x lv).2.DataF (u32sub ((lv.Size + 1) % U32) 1) = x ∧
    ∀ i, i ≠ u32sub ((lv.Size + 1) % U32) 1 → i < lv.Size →
      (Append alloc fresh x lv).2.DataF i = lv.DataF i := by
  by_cases hs : (SetSize_Copy alloc fresh ((lv.Size + 1) % U32) lv).1 = true
  · refine ⟨?_, ?_, ?_⟩
    · simp only [Append, if_pos hs]
      exact SetSize_Copy_size hs
    · simp [Append, hs]
    · intro i hne hi
      simp only [Append, if_pos hs]
      simpa [hne] using SetSize_Copy_keep alloc fresh ((lv.Size + 1) % U32)
        lv i hi
  · simp [Append, hs] at h

theorem Append_alloc_true {α : Type} (fresh : Nat → α) (x : α)
    (lv : LightVector α) : (Append true fresh x lv).1 = true := by
  have hs : (SetSize_Copy true fresh ((lv.Size + 1) % U32) lv).1 = true := by
    by_cases hg : lv.Allocated < (lv.Size + 1) % U32 <;>
      simp [SetSize_Copy, hg]
  simp [Append, hs]

theorem appendZeros_spec : ∀ (n : Nat) (lv : LightVector Int),
    lv.Size < U32 →
    (appendZeros n (true, lv)).1 = true ∧
    (appendZeros n (true, lv)).2.Size = (lv.Size + n) % U32 := by
  intro n
  induction n with
  | zero =>
    intro lv hsz
    exact ⟨rfl, (Nat.mod_eq_of_lt hsz).symm⟩
  | succ m ih =>
    intro lv hsz
    have htrue := Append_alloc_true (fun _ => (0 : Int)) 0 lv
    have hsize := (Append_success true (fun _ => (0 : Int)) 0 lv htrue).1
    have hstep : appendZeros (m + 1) (true, lv) =
        appendZeros m (true, (Append true (fun _ => (0 : Int)) 0 lv).2) := by
      simp only [appendZeros]
      simp [htrue]
    rw [hstep]
    have hlt : (Append true (fun _ => (0 : Int)) 0 lv).2.Size < U32 := by
      rw [hsize]
      exact Nat.mod_lt _ (by norm_num [U32])
    obtain ⟨h1, h2⟩ := ih (Append true (fun _ => (0 : Int)) 0 lv).2 hlt
    refine ⟨h1, ?_⟩
    rw [h2, hsize, Nat.mod_add_mod]
    congr 1
    omega

theorem Append_no_grow {α : Type} (alloc : Bool) (fresh : Nat → α) (x : α)
    (lv : LightVector α) (h1 : lv.Size + 1 ≤ lv.Allocated)
    (h2 : lv.Size + 1 < U32) :
    Append alloc fresh x lv =
      (true, { lv with
                 Size := lv.Size + 1
                 DataF := fun i => if i = lv.Size then x
                                   else lv.DataF i }) := by
  have hm : (lv.Size + 1) % U32 = lv.Size + 1 := Nat.mod_eq_of_lt h2
  have hng : ¬ (lv.Allocated < (lv.Size + 1) % U32) := by omega
  have hs : SetSize_Copy alloc fresh ((lv.Size + 1) % U32) lv
      = (true, { lv with Size := lv.Size + 1 }) := by
    rw [SetSize_Copy, if_neg hng, hm]
  have hidx : u32sub ((lv.Size + 1) % U32) 1 = lv.Size := by
    rw [hm, u32sub_eq_sub (by omega) h2]
    omega
  simp [Append, hs, hidx]

theorem runAppends_spec {α : Type} (pre : Nat → α) :
    ∀ (ops : List (Bool × (Nat → α) × α)), ops.length < U32 →
    (runAppends ops (true, lvInit pre)).1 = true →
    (runAppends ops (true, lvInit pre)).2.Size = ops.length ∧
    ∀ i (hi : i < ops.length),
      (runAppends ops (true, lvInit pre)).2.DataF i =
        (ops.get ⟨i, hi⟩).2.2 := by
  intro ops
  induction ops using List.reverseRecOn with
  | nil =>
    intro _ _
    exact ⟨rfl, fun i hi => absurd hi (Nat.not_lt_zero i)⟩
  | append_singleton l op ih =>
    intro hlen hok
    have hsplit : runAppends (l ++ [op]) (true, lvInit pre) =
        ((runAppends l (true, lvInit pre)).1 &&
          (Append op.1 op.2.1 op.2.2 (runAppends l (true, lvInit pre)).2).1,
         (Append op.1 op.2.1 op.2.2 (runAppends l (true, lvInit pre)).2).2) := by
      simp only [runAppends, List.foldl_append, List.foldl_cons,
        List.foldl_nil]
    rw [hsplit] at hok ⊢
    rw [Bool.and_eq_true] at hok
    obtain ⟨hR1, hr1⟩ := hok
    have hlen2 : l.length + 1 < U32 := by
      simpa using hlen
    obtain ⟨hSize, hvals⟩ := ih (by omega) hR1
    obtain ⟨hs2, hwrite, hkeep⟩ :=
      Append_success op.1 op.2.1 op.2.2 (runAppends l (true, lvInit pre)).2 hr1
    have hmod : ((runAppends l (true, lvInit pre)).2.Size + 1) % U32 =
        l.length + 1 := by
      rw [hSize]
      exact Nat.mod_eq_of_lt hlen2
    have hidx : u32sub (((runAppends l (true, lvInit pre)).2.Size + 1) % U32) 1
        = l.length := by
      rw [hmod, u32sub_eq_sub (by omega) hlen2]
      omega
    constructor
    · rw [hs2, hmod]
      simp
    · intro i hi
      rcases Nat.lt_or_ge i l.length with hil | hig
      · have hne : i ≠ u32sub
            (((runAppends l (true, lvInit pre)).2.Size + 1) % U32) 1 := by
          rw [hidx]
          omega
        rw [hkeep i hne (by rw [hSize]; exact hil), hvals i hil]
        simp [List.get_eq_getElem, List.getElem_append_left hil]
      · have hieq : i = l.length := by
          simp at hi
          omega
        subst hieq
        have hw2 : (Append op.1 op.2.1 op.2.2
            (runAppends l (true, lvInit pre)).2).2.DataF l.length
            = op.2.2 := by
          rw [← hidx]
          exact hwrite
        rw [hw2]
        simp [List.get_eq_getElem, List.getElem_concat_length]

/-- C5 counterexample: on a fresh vector, `SetSize_NoCopy(2^31)` with a
successful allocation yields capacity `2^30` — the 32-bit `unsigned`
product `elements * 3` wraps — not `floor(2^31 * 3 / 2) = 3 * 2^30`, so
the claimed growth formula fails at `n = 2^31`. -/
theorem growth_capacity_overflow_cex :
    (SetSize_NoCopy true (fun _ => (0 : Int)) 2147483648
        (lvInit fun _ => (0 : Int))).1 = true ∧
    (SetSize_NoCopy true (fun _ => (0 : Int)) 2147483648
        (lvInit fun _ => (0 : Int))).2.Allocated = 1073741824 ∧
    (1073741824 : Nat) ≠ 2147483648 * 3 / 2 := by
  refine ⟨by decide, by decide, by decide⟩

/-- C5 amended: growth reallocates exactly when the requested size
exceeds the current capacity, the new capacity is `(n * 3) mod 2^32 / 2`
— which equals `floor(n * 3 / 2)` whenever `n * 3` does not overflow the
32-bit `unsigned` — and any call with `n` at most the current capacity
(including two consecutive in-capacity `Append`s) performs no allocation:
its result is independent of the allocation oracle and leaves capacity,
heap flag and storage untouched. -/
theorem growth_capacity_formula {α : Type} (alloc : Bool) (fresh : Nat → α)
    (n : Nat) (lv : LightVector α) :
    (lv.Allocated < n →
      (SetSize_NoCopy alloc fresh n lv).1 = alloc ∧
      (SetSize_Copy alloc fresh n lv).1 = alloc ∧
      (SetSize_NoCopy true fresh n lv).2.Allocated = n * 3 % U32 / 2 ∧
      (SetSize_Copy true fresh n lv).2.Allocated = n * 3 % U32 / 2 ∧
      (SetSize_NoCopy true fresh n lv).2.Heap = true ∧
      (n * 3 < U32 → n * 3 % U32 / 2 = n * 3 / 2)) ∧
    (n ≤ lv.Allocated →
      SetSize_NoCopy alloc fresh n lv = (true, { lv with Size := n }) ∧
      SetSize_Copy alloc fresh n lv = (true, { lv with Size := n })) ∧
    (lv.Size + 2 ≤ lv.Allocated → lv.Allocated < U32 → ∀ x y : α,
      Append alloc fresh x lv =
        (true, { lv with
                   Size := lv.Size + 1
                   DataF := fun i => if i = lv.Size then x
                                     else lv.DataF i }) ∧
      (Append alloc fresh y (Append alloc fresh x lv).2).1 = true ∧
      (Append alloc fresh y (Append alloc fresh x lv).2).2.Allocated =
        lv.Allocated ∧
      (Append alloc fresh y (Append alloc fresh x lv).2).2.Heap = lv.Heap) := by
  refine ⟨?_, ?_, ?_⟩
  · intro hg
    refine ⟨?_, ?_, ?_, ?_, ?_, fun h => by rw [Nat.mod_eq_of_lt h]⟩
    · cases alloc with
      | true => simp [SetSize_NoCopy, hg]
      | false => simp [SetSize_NoCopy, hg]
    · cases alloc with
      | true => simp [SetSize_Copy, hg]
      | false => simp [SetSize_Copy, hg]
    · simp [SetSize_NoCopy, hg]
    · simp [SetSize_Copy, hg]
    · simp [SetSize_NoCopy, hg]
  · intro hle
    have hng : ¬ (lv.Allocated < n) := by omega
    constructor
    · rw [SetSize_NoCopy, if_neg hng]
    · rw [SetSize_Copy, if_neg hng]
  · intro hcap hcap32 x y
    have h1 := Append_no_grow alloc fresh x lv (by omega) (by omega)
    refine ⟨h1, ?_, ?_, ?_⟩ <;>
      rw [h1, Append_no_grow alloc fresh y _ (by simp; omega)
        (by simp; omega)]

/-- C5 witness: growing a fresh vector (capacity 25) to 30 elements with
a failing allocator reports failure (an allocation was attempted), and
with a succeeding allocator the new capacity is `30 * 3 mod 2^32 / 2`. -/
theorem growth_capacity_formula_witness :
    (SetSize_NoCopy false (fun _ => (0 : Int)) 30
        (lvInit fun _ => (0 : Int))).1 = false ∧
    (SetSize_NoCopy true (fun _ => (0 : Int)) 30
        (lvInit fun _ => (0 : Int))).2.Allocated = 30 * 3 % U32 / 2 := by
  have h := (growth_capacity_formula false (fun _ => (0 : Int)) 30
    (lvInit fun _ => (0 : Int))).1 (by decide)
  exact ⟨h.1, h.2.2.1⟩

/-- C6 counterexample: a sequence of `2^32` `Append` calls on a fresh
vector in which every call returns `true`, after which `GetSize()` is `0`
(the 32-bit size wrapped), not `2^32` — so the claim fails at `N = 2^32`. -/
theorem append_wraparound_cex :
    (appendZeros 4294967296 (true, lvInit fun _ => (0 : Int))).1 = true ∧
    GetSize (appendZeros 4294967296 (true, lvInit fun _ => (0 : Int))).2
      = 0 ∧
    (0 : Nat) ≠ 4294967296 := by
  obtain ⟨h1, h2⟩ := appendZeros_spec 4294967296 (lvInit fun _ => (0 : Int))
    (by norm_num [lvInit, U32])
  refine ⟨h1, ?_, by norm_num⟩
  rw [GetSize, h2]
  norm_num [lvInit, U32]

/-- C6 amended: for every sequence of `N < 2^32` `Append` calls on a
fresh vector in which every call returns `true`, `GetSize()` is `N` and
`GetRef(i)` is the i-th appended value for every `i < N`, regardless of
reallocations; and a successful `SetSize_Copy` preserves the first
`min(old size, new size)` elements, so a successful `SetSize_Copy(n)`
followed by a successful `SetSize_Copy(m)` with `m > n` preserves the
first `n` elements exactly. -/
theorem append_sequence_preserved {α : Type} (pre : Nat → α)
    (ops : List (Bool × (Nat → α) × α)) (hlen : ops.length < U32)
    (hok : (runAppends ops (true, lvInit pre)).1 = true) :
    (GetSize (runAppends ops (true, lvInit pre)).2 = ops.length ∧
      ∀ i (hi : i < ops.length),
        GetRef (runAppends ops (true, lvInit pre)).2 i =
          (ops.get ⟨i, hi⟩).2.2) ∧
    (∀ (lv : LightVector α) (n m : Nat) (a1 a2 : Bool) (f1 f2 : Nat → α),
      n < m →
      ((SetSize_Copy a1 f1 n lv).1 = true →
        (∀ i, i < lv.Size → i < n →
          (SetSize_Copy a1 f1 n lv).2.DataF i = lv.DataF i) ∧
        ((SetSize_Copy a2 f2 m (SetSize_Copy a1 f1 n lv).2).1 = true →
          ∀ i, i < n →
            (SetSize_Copy a2 f2 m (SetSize_Copy a1 f1 n lv).2).2.DataF i =
              (SetSize_Copy a1 f1 n lv).2.DataF i))) := by
  constructor
  · exact runAppends_spec pre ops hlen hok
  · intro lv n m a1 a2 f1 f2 _ hok1
    constructor
    · intro i hi _
      exact SetSize_Copy_keep a1 f1 n lv i hi
    · intro _ i hin
      refine SetSize_Copy_keep a2 f2 m (SetSize_Copy a1 f1 n lv).2 i ?_
      rw [SetSize_Copy_size hok1]
      exact hin

/-- C6 witness: three appends of `10, 20, 30` to a fresh integer vector
(all succeeding) give size 3 with the values retrievable in order. -/
theorem append_sequence_witness :
    GetSize (runAppends
      [(true, fun _ => (0 : Int), (10 : Int)),
       (true, fun _ => (0 : Int), (20 : Int)),
       (true, fun _ => (0 : Int), (30 : Int))]
      (true, lvInit fun _ => (0 : Int))).2 = 3 ∧
    GetRef (runAppends
      [(true, fun _ => (0 : Int), (10 : Int)),
       (true, fun _ => (0 : Int), (20 : Int)),
       (true, fun _ => (0 : Int), (30 : Int))]
      (true, lvInit fun _ => (0 : Int))).2 1 = 20 := by
  have h := append_sequence_preserved (fun _ => (0 : Int))
    [(true, fun _ => (0 : Int), (10 : Int)),
     (true, fun _ => (0 : Int), (20 : Int)),
     (true, fun _ => (0 : Int), (30 : Int))]
    (by norm_num [U32]) rfl
  exact ⟨h.1.1, h.1.2 1 (by norm_num)⟩

/-- C7 (code-bug evaluation): on a fresh vector, `SetSize_NoCopy(2^31)`
with a successful allocation reports success but leaves `Size = 2^31`
greater than `Allocated = 2^30` — the 32-bit product `elements * 3`
wrapped — violating the `size <= capacity` invariant that the code
itself asserts (`SIAMESE_DEBUG_ASSERT(Size <= Allocated)`). -/
theorem size_exceeds_capacity_bug :
    (SetSize_NoCopy true (fun _ => (0 : Int)) 2147483648
        (lvInit fun _ => (0 : Int))).1 = true ∧
    (SetSize_NoCopy true (fun _ => (0 : Int)) 2147483648
        (lvInit fun _ => (0 : Int))).2.Size = 2147483648 ∧
    (SetSize_NoCopy true (fun _ => (0 : Int)) 2147483648
        (lvInit fun _ => (0 : Int))).2.Allocated = 1073741824 ∧
    ¬ (SetSize_NoCopy true (fun _ => (0 : Int)) 2147483648
        (lvInit fun _ => (0 : Int))).2.Size ≤
      (SetSize_NoCopy true (fun _ => (0 : Int)) 2147483648
        (lvInit fun _ => (0 : Int))).2.Allocated := by
  refine ⟨by decide, by decide, by decide, by decide⟩

/-! ## WindowedMinMax ordering invariant -/

theorem cmp_of_not {cmp : Int → Int → Bool}
    (htot : ∀ x y : Int, cmp x y = true ∨ cmp y x = true) {x y : Int}
    (h : cmp x y = false) : cmp y x = true :=
  (htot x y).resolve_left (by simp [h])

theorem wmmInsert_props (cmp : Int → Int → Bool)
    (htot : ∀ x y : Int, cmp x y = true ∨ cmp y x = true)
    (s : Sample) (st : WindowedMinMax) (hord : Ordered cmp st)
    (hnb : cmp s.Value st.s0.Value = false) :
    Ordered cmp (wmmInsert cmp s st) ∧
    cmp (wmmInsert cmp s st).s0.Value s.Value = true ∧
    cmp (wmmInsert cmp s st).s2.Value s.Value = true := by
  have hrefl : ∀ x, cmp x x = true := fun x => (htot x x).elim id id
  have h0v : cmp st.s0.Value s.Value = true := cmp_of_not htot hnb
  by_cases h1 : cmp s.Value st.s1.Value = true
  · rw [wmmInsert, if_pos h1]
    exact ⟨⟨h0v, hrefl _⟩, h0v, hrefl _⟩
  · have h1f : cmp s.Value st.s1.Value = false := by
      simpa using h1
    have h1v : cmp st.s1.Value s.Value = true := cmp_of_not htot h1f
    by_cases h2 : cmp s.Value st.s2.Value = true
    · rw [wmmInsert, if_neg h1, if_pos h2]
      exact ⟨⟨hord.1, h1v⟩, h0v, hrefl _⟩
    · have h2f : cmp s.Value st.s2.Value = false := by
        simpa using h2
      have h2v : cmp st.s2.Value s.Value = true := cmp_of_not htot h2f
      rw [wmmInsert, if_neg h1, if_neg h2]
      exact ⟨hord, h0v, h2v⟩

theorem wmmAge_ordered (cmp : Int → Int → Bool)
    (hrefl : ∀ x, cmp x x = true) (s : Sample) (t w : Nat)
    (st1 : WindowedMinMax) (hord : Ordered cmp st1)
    (h0v : cmp st1.s0.Value s.Value = true)
    (h2v : cmp st1.s2.Value s.Value = true) :
    Ordered cmp (wmmAge s t w st1) := by
  rw [wmmAge]
  by_cases hb : TimeoutExpired st1.s0 t w
  · rw [if_pos hb]
    by_cases hb1 : TimeoutExpired st1.s1 t w
    · rw [if_pos hb1]
      exact ⟨h2v, hrefl _⟩
    · rw [if_neg hb1]
      exact ⟨hord.2, h2v⟩
  · rw [if_neg hb]
    by_cases hq : st1.s1.Value = st1.s0.Value ∧ TimeoutExpired st1.s1 t (w / 4)
    · rw [if_pos hq]
      exact ⟨h0v, hrefl _⟩
    · rw [if_neg hq]
      by_cases hh : st1.s2.Value = st1.s1.Value ∧
          TimeoutExpired st1.s2 t (w / 2)
      · rw [if_pos hh]
        refine ⟨hord.1, ?_⟩
        rw [← hh.1]
        exact h2v
      · rw [if_neg hh]
        exact hord

theorem Update_ordered (cmp : Int → Int → Bool)
    (htot : ∀ x y : Int, cmp x y = true ∨ cmp y x = true)
    (v : Int) (t w : Nat) (st : WindowedMinMax) (hord : Ordered cmp st) :
    Ordered cmp (Update cmp v t w st) := by
  have hrefl : ∀ x, cmp x x = true := fun x => (htot x x).elim id id
  rw [Update]
  by_cases hc : ¬ IsValid st ∨ cmp v st.s0.Value = true ∨
      TimeoutExpired st.s2 t w
  · rw [if_pos hc]
    exact ⟨hrefl _, hrefl _⟩
  · rw [if_neg hc]
    have hnb : cmp v st.s0.Value = false := by
      have h := fun h => hc (Or.inr (Or.inl h))
      simpa using h
    obtain ⟨hordi, h0v, h2v⟩ :=
      wmmInsert_props cmp htot { Value := v, Timestamp := t } st hord hnb
    exact wmmAge_ordered cmp hrefl _ t w _ hordi h0v h2v

/-- C3: in every state reachable from the initial all-zero state by any
sequence of `Reset` and `Update` calls, the best sample's value is at
least as extreme as the second's, and the second's at least as extreme as
the third's, under any total configured comparison (equality allowed). -/
theorem ordered_invariant_reachable (cmp : Int → Int → Bool)
    (htot : ∀ x y : Int, cmp x y = true ∨ cmp y x = true)
    (ops : List WmmOp) :
    Ordered cmp (runOps cmp ops wmmInit) := by
  have hrefl : ∀ x, cmp x x = true := fun x => (htot x x).elim id id
  have hstep : ∀ st op, Ordered cmp st → Ordered cmp (wmmStep cmp st op) := by
    intro st op h
    cases op with
    | reset s => exact ⟨hrefl _, hrefl _⟩
    | update v t w => exact Update_ordered cmp htot v t w st h
  have hrun : ∀ l st, Ordered cmp st → Ordered cmp (runOps cmp l st) := by
    intro l
    induction l with
    | nil => exact fun st h => h
    | cons op l ihl => exact fun st h => ihl _ (hstep st op h)
  exact hrun ops wmmInit ⟨hrefl _, hrefl _⟩

/-- C3 witness: the invariant holds for the min-comparison after a mixed
concrete sequence of updates and a reset. -/
theorem ordered_invariant_witness :
    Ordered cmpMin (runOps cmpMin
      [WmmOp.update 5 0 10, WmmOp.update 3 1 10,
       WmmOp.reset { Value := 2, Timestamp := 2 },
       WmmOp.update 7 3 10] wmmInit) :=
  ordered_invariant_reachable cmpMin
    (fun x y => (Int.le_total x y).imp decide_eq_true decide_eq_true)
    [WmmOp.update 5 0 10, WmmOp.update 3 1 10,
     WmmOp.reset { Value := 2, Timestamp := 2 },
     WmmOp.update 7 3 10]

/-! ## WindowedMinMax aging invariant -/

theorem chain_concat : ∀ (l : List Nat) (τ t : Nat),
    List.Chain (fun a b => a ≤ b) τ (l ++ [t]) →
    List.Chain (fun a b => a ≤ b) τ l ∧ List.getLastD l τ ≤ t := by
  intro l
  induction l with
  | nil =>
    intro τ t h
    rw [List.nil_append, List.chain_cons] at h
    exact ⟨List.Chain.nil, h.1⟩
  | cons a l ihl =>
    intro τ t h
    rw [List.cons_append, List.chain_cons] at h
    obtain ⟨hτa, hrest⟩ := h
    obtain ⟨hch, hlast⟩ := ihl a t hrest
    exact ⟨List.chain_cons.mpr ⟨hτa, hch⟩, by rwa [List.getLastD_cons]⟩

theorem wmmInsert_cases (cmp : Int → Int → Bool) (s : Sample)
    (st : WindowedMinMax) :
    (wmmInsert cmp s st).s0 = st.s0 ∧
    ((wmmInsert cmp s st).s1 = st.s1 ∨ (wmmInsert cmp s st).s1 = s) ∧
    ((wmmInsert cmp s st).s2 = st.s2 ∨ (wmmInsert cmp s st).s2 = s) := by
  rw [wmmInsert]
  by_cases h1 : cmp s.Value st.s1.Value = true
  · rw [if_pos h1]
    exact ⟨rfl, Or.inr rfl, Or.inr rfl⟩
  · rw [if_neg h1]
    by_cases h2 : cmp s.Value st.s2.Value = true
    · rw [if_pos h2]
      exact ⟨rfl, Or.inl rfl, Or.inr rfl⟩
    · rw [if_neg h2]
      exact ⟨rfl, Or.inl rfl, Or.inl rfl⟩

theorem Update_step_fresh (cmp : Int → Int → Bool) (v : Int) (t w : Nat)
    (st : WindowedMinMax) (hb : TsBounded st t) (ht : t < U64) :
    TsBounded (Update cmp v t w st) t ∧
    t - (Update cmp v t w st).s0.Timestamp ≤ w := by
  obtain ⟨h0, h1, h2⟩ := hb
  have texp : ∀ s : Sample, s.Timestamp ≤ t → ¬ TimeoutExpired s t w →
      t - s.Timestamp ≤ w := by
    intro s hs hn
    have h := Nat.le_of_not_lt hn
    rwa [u64sub_eq_sub hs ht] at h
  rw [Update]
  by_cases hc : ¬ IsValid st ∨ cmp v st.s0.Value = true ∨
      TimeoutExpired st.s2 t w
  · rw [if_pos hc]
    exact ⟨⟨le_refl t, le_refl t, le_refl t⟩, by simp [Reset]⟩
  · rw [if_neg hc]
    have hC : ¬ TimeoutExpired st.s2 t w := fun h => hc (Or.inr (Or.inr h))
    have hs2w : t - st.s2.Timestamp ≤ w := texp st.s2 h2 hC
    obtain ⟨hi0, hi1, hi2⟩ :=
      wmmInsert_cases cmp { Value := v, Timestamp := t } st
    have hb0 : (wmmInsert cmp { Value := v, Timestamp := t } st).s0.Timestamp
        ≤ t := by rw [hi0]; exact h0
    have hb1 : (wmmInsert cmp { Value := v, Timestamp := t } st).s1.Timestamp
        ≤ t := by rcases hi1 with h | h <;> rw [h]; exact h1
    have hb2 : (wmmInsert cmp { Value := v, Timestamp := t } st).s2.Timestamp
        ≤ t := by rcases hi2 with h | h <;> rw [h]; exact h2
    rw [wmmAge]
    by_cases hbexp : TimeoutExpired
        (wmmInsert cmp { Value := v, Timestamp := t } st).s0 t w
    · rw [if_pos hbexp]
      by_cases hb1e : TimeoutExpired
          (wmmInsert cmp { Value := v, Timestamp := t } st).s1 t w
      · rw [if_pos hb1e]
        refine ⟨⟨hb2, le_refl t, le_refl t⟩, ?_⟩
        rcases hi2 with h | h <;> rw [h]
        · exact hs2w
        · simp
      · rw [if_neg hb1e]
        exact ⟨⟨hb1, hb2, le_refl t⟩, texp _ hb1 hb1e⟩
    · rw [if_neg hbexp]
      have hbw : t - (wmmInsert cmp { Value := v, Timestamp := t }
          st).s0.Timestamp ≤ w := texp _ hb0 hbexp
      by_cases hq : (wmmInsert cmp { Value := v, Timestamp := t } st).s1.Value
            = (wmmInsert cmp { Value := v, Timestamp := t } st).s0.Value ∧
          TimeoutExpired (wmmInsert cmp { Value := v, Timestamp := t } st).s1
            t (w / 4)
      · rw [if_pos hq]
        exact ⟨⟨hb0, le_refl t, le_refl t⟩, hbw⟩
      · rw [if_neg hq]
        by_cases hh : (wmmInsert cmp { Value := v, Timestamp := t }
              st).s2.Value
              = (wmmInsert cmp { Value := v, Timestamp := t } st).s1.Value ∧
            TimeoutExpired (wmmInsert cmp { Value := v, Timestamp := t }
              st).s2 t (w / 2)
        · rw [if_pos hh]
          exact ⟨⟨hb0, hb1, le_refl t⟩, hbw⟩
        · rw [if_neg hh]
          exact ⟨⟨hb0, hb1, hb2⟩, hbw⟩

theorem runUpdates_tsBounded (cmp : Int → Int → Bool) (w : Nat) :
    ∀ (l : List (Int × Nat)) (st : WindowedMinMax) (τ : Nat),
    TsBounded st τ →
    List.Chain (fun a b => a ≤ b) τ (l.map Prod.snd) →
    (∀ p ∈ l, p.2 < U64) →
    TsBounded (runUpdates cmp w l st) (List.getLastD (l.map Prod.snd) τ) := by
  intro l
  induction l with
  | nil =>
    intro st τ h _ _
    exact h
  | cons p l ihl =>
    intro st τ hb hchain hlt
    rw [List.map_cons, List.chain_cons] at hchain
    obtain ⟨hτ, hch⟩ := hchain
    have hb2 : TsBounded st p.2 :=
      ⟨le_trans hb.1 hτ, le_trans hb.2.1 hτ, le_trans hb.2.2 hτ⟩
    have hstep := (Update_step_fresh cmp p.1 p.2 w st hb2
      (hlt p (List.mem_cons_self p l))).1
    rw [List.map_cons, List.getLastD_cons]
    exact ihl (Update cmp p.1 p.2 w st) p.2 hstep hch
      (fun q hq => hlt q (List.mem_cons_of_mem p hq))

/-- C9: driving the estimator only by `Update` calls with non-decreasing
timestamps and a fixed window length, immediately after each update the
retained best sample is never expired: the update's timestamp minus the
best sample's timestamp is at most the window length. -/
theorem best_never_expired (cmp : Int → Int → Bool) (w : Nat)
    (pre : List (Int × Nat)) (v : Int) (t : Nat)
    (hchain : List.Chain (fun a b => a ≤ b) 0
      ((pre ++ [(v, t)]).map Prod.snd))
    (hbound : ∀ p ∈ pre ++ [(v, t)], p.2 < U64) :
    (runUpdates cmp w (pre ++ [(v, t)]) wmmInit).s0.Timestamp ≤ t ∧
    t - (runUpdates cmp w (pre ++ [(v, t)]) wmmInit).s0.Timestamp ≤ w := by
  have hmap : (pre ++ [(v, t)]).map Prod.snd = pre.map Prod.snd ++ [t] := by
    simp
  rw [hmap] at hchain
  obtain ⟨hch, hlast⟩ := chain_concat (pre.map Prod.snd) 0 t hchain
  have hb0 : TsBounded wmmInit 0 := ⟨Nat.le_refl 0, Nat.le_refl 0, Nat.le_refl 0⟩
  have hbpre := runUpdates_tsBounded cmp w pre wmmInit 0 hb0 hch
    (fun p hp => hbound p (List.mem_append_left _ hp))
  have hbt : TsBounded (runUpdates cmp w pre wmmInit) t :=
    ⟨le_trans hbpre.1 hlast, le_trans hbpre.2.1 hlast,
     le_trans hbpre.2.2 hlast⟩
  have hsplit : runUpdates cmp w (pre ++ [(v, t)]) wmmInit =
      Update cmp v t w (runUpdates cmp w pre wmmInit) := by
    simp [runUpdates, List.foldl_append]
  rw [hsplit]
  have ht : t < U64 := hbound (v, t) (by simp)
  obtain ⟨hb, hw⟩ := Update_step_fresh cmp v t w _ hbt ht
  exact ⟨hb.1, hw⟩

/-- C9 witness: after updates at times 3 then 4 with window length 10,
the best sample's age at time 4 is within the window. -/
theorem best_never_expired_witness :
    (runUpdates cmpMin 10 ([(5, 3)] ++ [(2, 4)]) wmmInit).s0.Timestamp ≤ 4 ∧
    4 - (runUpdates cmpMin 10 ([(5, 3)] ++ [(2, 4)]) wmmInit).s0.Timestamp
      ≤ 10 :=
  best_never_expired cmpMin 10 [(5, 3)] 2 4
    (List.chain_cons.mpr ⟨by norm_num, List.chain_cons.mpr
      ⟨by norm_num, List.Chain.nil⟩⟩)
    (by decide)

/-! ## The min-seeking small-value scenario -/

theorem wmmInsert_eq (cmp : Int → Int → Bool) (a : Int) (b : Nat)
    (st : WindowedMinMax) :
    wmmInsert cmp { Value := a, Timestamp := b } st =
      (if cmp a st.s1.Value = true then
        { s0 := st.s0, s1 := { Value := a, Timestamp := b },
          s2 := { Value := a, Timestamp := b } }
      else if cmp a st.s2.Value = true then
        { s0 := st.s0, s1 := st.s1,
          s2 := { Value := a, Timestamp := b } }
      else st) := rfl

theorem scen_insert (v : Int) (t0 : Nat) (O : Int → Prop) (lastT : Nat)
    (st : WindowedMinMax) (u : Int) (t : Nat)
    (hInv : ScenInv v t0 O lastT st) (hu : v < u) (hOu : O u)
    (hlt : lastT ≤ t) :
    ScenInv v t0 O t
      (wmmInsert cmpMin { Value := u, Timestamp := t } st) := by
  obtain ⟨hs0, hs1v, hs2v, hm1, hm2, ht1a, ht1b, ht2a, ht2b⟩ := hInv
  have ht0t : t0 ≤ t := le_trans (le_trans ht1a ht1b) hlt
  rw [wmmInsert_eq]
  by_cases h1 : cmpMin u st.s1.Value = true
  · rw [if_pos h1]
    exact ⟨hs0, fun h => absurd (show u = v from h) (by omega),
           fun h => absurd (show u = v from h) (by omega),
           Or.inr hOu, Or.inr hOu, ht0t, Nat.le_refl t, ht0t, Nat.le_refl t⟩
  · rw [if_neg h1]
    by_cases h2 : cmpMin u st.s2.Value = true
    · rw [if_pos h2]
      refine ⟨hs0, ?_, fun h => absurd (show u = v from h) (by omega),
              hm1, Or.inr hOu, ht1a, le_trans ht1b hlt, ht0t,
              Nat.le_refl t⟩
      intro h
      exfalso
      obtain ⟨hts, hs2eq⟩ := hs1v h
      rw [hs2eq] at h2
      have h2v : decide (u ≤ v) = true := h2
      have := of_decide_eq_true h2v
      omega
    · rw [if_neg h2]
      exact ⟨hs0, hs1v, hs2v, hm1, hm2, ht1a, le_trans ht1b hlt, ht2a,
             le_trans ht2b hlt⟩

theorem scen_age (v : Int) (t0 w : Nat) (O : Int → Prop)
    (st1 : WindowedMinMax) (u : Int) (t : Nat)
    (hInv : ScenInv v t0 O t st1) (hu : v < u) (hOu : O u)
    (htw : t ≤ t0 + w) (hw64 : t0 + w < U64) :
    ScenInv v t0 O t (wmmAge { Value := u, Timestamp := t } t w st1) := by
  obtain ⟨hs0, hs1v, hs2v, hm1, hm2, ht1a, ht1b, ht2a, ht2b⟩ := hInv
  have ht0t : t0 ≤ t := le_trans ht1a ht1b
  have ht64 : t < U64 := by omega
  have hts0 : st1.s0.Timestamp = t0 := by rw [hs0]
  have hnb : ¬ TimeoutExpired st1.s0 t w := by
    show ¬ (u64sub t st1.s0.Timestamp > w)
    rw [hts0, u64sub_eq_sub ht0t ht64]
    omega
  rw [wmmAge, if_neg hnb]
  by_cases hq : st1.s1.Value = st1.s0.Value ∧
      TimeoutExpired st1.s1 t (w / 4)
  · rw [if_pos hq]
    exact ⟨hs0, fun h => absurd (show u = v from h) (by omega),
           fun h => absurd (show u = v from h) (by omega),
           Or.inr hOu, Or.inr hOu, ht0t, Nat.le_refl t, ht0t, Nat.le_refl t⟩
  · rw [if_neg hq]
    by_cases hh : st1.s2.Value = st1.s1.Value ∧
        TimeoutExpired st1.s2 t (w / 2)
    · rw [if_pos hh]
      refine ⟨hs0, ?_, fun h => absurd (show u = v from h) (by omega),
              hm1, Or.inr hOu, ht1a, ht1b, ht0t, Nat.le_refl t⟩
      intro h
      exfalso
      obtain ⟨hts1, hs2eq⟩ := hs1v h
      apply hq
      constructor
      · rw [h, hs0]
      · show u64sub t st1.s1.Timestamp > w / 4
        rw [hts1, u64sub_eq_sub ht0t ht64]
        have h2 := hh.2
        have hts2 : st1.s2.Timestamp = t0 := by rw [hs2eq]
        rw [show TimeoutExpired st1.s2 t (w / 2) =
          (u64sub t st1.s2.Timestamp > w / 2) from rfl] at h2
        rw [hts2, u64sub_eq_sub ht0t ht64] at h2
        have hdiv : w / 4 ≤ w / 2 :=
          Nat.div_le_div_left (by norm_num) (by norm_num)
        omega
    · rw [if_neg hh]
      exact ⟨hs0, hs1v, hs2v, hm1, hm2, ht1a, ht1b, ht2a, ht2b⟩

theorem scen_step (v : Int) (t0 w : Nat) (O : Int → Prop) (lastT : Nat)
    (st : WindowedMinMax) (u : Int) (t : Nat)
    (hv : v ≠ 0) (hInv : ScenInv v t0 O lastT st) (hu : v < u) (hOu : O u)
    (hlt : lastT ≤ t) (htw : t ≤ t0 + w) (hw64 : t0 + w < U64) :
    ScenInv v t0 O t (Update cmpMin u t w st) := by
  have hcond : ¬ (¬ IsValid st ∨ cmpMin u st.s0.Value = true ∨
      TimeoutExpired st.s2 t w) := by
    obtain ⟨hs0, hs1v, hs2v, hm1, hm2, ht1a, ht1b, ht2a, ht2b⟩ := hInv
    have ht0t : t0 ≤ t := le_trans (le_trans ht1a ht1b) hlt
    have ht64 : t < U64 := by omega
    intro h
    rcases h with h | h | h
    · apply h
      show st.s0.Value ≠ 0
      rw [hs0]
      exact hv
    · rw [hs0] at h
      have h2v : decide (u ≤ v) = true := h
      have := of_decide_eq_true h2v
      omega
    · have hts2t : st.s2.Timestamp ≤ t := le_trans ht2b hlt
      rw [show TimeoutExpired st.s2 t w =
        (u64sub t st.s2.Timestamp > w) from rfl] at h
      rw [u64sub_eq_sub hts2t ht64] at h
      omega
  rw [Update, if_neg hcond]
  exact scen_age v t0 w O _ u t
    (scen_insert v t0 O lastT st u t hInv hu hOu hlt) hu hOu htw hw64

theorem scen_run (v : Int) (t0 w : Nat) (O : Int → Prop)
    (hv : v ≠ 0) (hw64 : t0 + w < U64) :
    ∀ (P : List (Int × Nat)) (st : WindowedMinMax) (lastT : Nat),
    ScenInv v t0 O lastT st →
    (∀ p ∈ P, v < p.1 ∧ p.2 ≤ t0 + w ∧ O p.1) →
    List.Chain (fun a b => a ≤ b) lastT (P.map Prod.snd) →
    ScenInv v t0 O (List.getLastD (P.map Prod.snd) lastT)
      (runUpdates cmpMin w P st) := by
  intro P
  induction P with
  | nil =>
    intro st lastT h _ _
    exact h
  | cons p P ih =>
    intro st lastT hInv hP hchain
    rw [List.map_cons, List.chain_cons] at hchain
    obtain ⟨hle, hch⟩ := hchain
    obtain ⟨hu, htw, hOu⟩ := hP p (List.mem_cons_self p P)
    have hstep := scen_step v t0 w O lastT st p.1 p.2 hv hInv hu hOu hle
      htw hw64
    rw [List.map_cons, List.getLastD_cons]
    exact ih (Update cmpMin p.1 p.2 w st) p.2 hstep
      (fun q hq => hP q (List.mem_cons_of_mem p hq)) hch

theorem scen_final (v : Int) (t0 w : Nat) (O : Int → Prop) (lastT : Nat)
    (st : WindowedMinMax) (u : Int) (t : Nat)
    (hv : v ≠ 0) (hInv : ScenInv v t0 O lastT st) (hu : v < u)
    (hO : ∀ x, O x → v < x) (hlt : lastT ≤ t) (ht64 : t < U64)
    (htw : t0 + w < t) :
    v < GetBest (Update cmpMin u t w st) ∧
    (GetBest (Update cmpMin u t w st) = u ∨
      O (GetBest (Update cmpMin u t w st))) := by
  obtain ⟨hs0, hs1v, hs2v, hm1, hm2, ht1a, ht1b, ht2a, ht2b⟩ := hInv
  have ht0t : t0 ≤ t := le_trans (le_trans ht1a ht1b) hlt
  by_cases hc : TimeoutExpired st.s2 t w
  · rw [Update, if_pos (Or.inr (Or.inr hc))]
    exact ⟨hu, Or.inl rfl⟩
  · have hcond : ¬ (¬ IsValid st ∨ cmpMin u st.s0.Value = true ∨
        TimeoutExpired st.s2 t w) := by
      intro h
      rcases h with h | h | h
      · apply h
        show st.s0.Value ≠ 0
        rw [hs0]
        exact hv
      · rw [hs0] at h
        have h2v : decide (u ≤ v) = true := h
        have := of_decide_eq_true h2v
        omega
      · exact hc h
    rw [Update, if_neg hcond]
    obtain ⟨hi0, hi1, hi2⟩ :=
      wmmInsert_cases cmpMin { Value := u, Timestamp := t } st
    have hexp0 : TimeoutExpired
        (wmmInsert cmpMin { Value := u, Timestamp := t } st).s0 t w := by
      show u64sub t
        (wmmInsert cmpMin { Value := u, Timestamp := t } st).s0.Timestamp > w
      have hts : (wmmInsert cmpMin
          { Value := u, Timestamp := t } st).s0.Timestamp = t0 := by
        rw [hi0, hs0]
      rw [hts, u64sub_eq_sub ht0t ht64]
      omega
    rw [wmmAge, if_pos hexp0]
    by_cases h1e : TimeoutExpired
        (wmmInsert cmpMin { Value := u, Timestamp := t } st).s1 t w
    · rw [if_pos h1e]
      rcases hi2 with h | h
      · rcases hm2 with hv2 | hO2
        · exfalso
          apply hc
          show u64sub t st.s2.Timestamp > w
          rw [hs2v hv2, u64sub_eq_sub ht0t ht64]
          omega
        · constructor
          · show v < (wmmInsert cmpMin
              { Value := u, Timestamp := t } st).s2.Value
            rw [h]
            exact hO _ hO2
          · right
            show O (wmmInsert cmpMin
              { Value := u, Timestamp := t } st).s2.Value
            rw [h]
            exact hO2
      · constructor
        · show v < (wmmInsert cmpMin
            { Value := u, Timestamp := t } st).s2.Value
          rw [h]
          exact hu
        · left
          show (wmmInsert cmpMin
            { Value := u, Timestamp := t } st).s2.Value = u
          rw [h]
    · rw [if_neg h1e]
      rcases hi1 with h | h
      · rcases hm1 with hv1 | hO1
        · exfalso
          apply h1e
          show u64sub t (wmmInsert cmpMin
            { Value := u, Timestamp := t } st).s1.Timestamp > w
          rw [h, (hs1v hv1).1, u64sub_eq_sub ht0t ht64]
          omega
        · constructor
          · show v < (wmmInsert cmpMin
              { Value := u, Timestamp := t } st).s1.Value
            rw [h]
            exact hO _ hO1
          · right
            show O (wmmInsert cmpMin
              { Value := u, Timestamp := t } st).s1.Value
            rw [h]
            exact hO1
      · constructor
        · show v < (wmmInsert cmpMin
            { Value := u, Timestamp := t } st).s1.Value
          rw [h]
          exact hu
        · left
          show (wmmInsert cmpMin
            { Value := u, Timestamp := t } st).s1.Value = u
          rw [h]

/-- C8 counterexample: min-seeking, window length 100.  Feed `1` at time
0, then the strictly larger values `5` at 10 and `7` at 30 (within the
window: the best stays `1`), then `9` at time 101, the first update at
which the best sample's age exceeds the window.  The estimator's best
becomes `7` — but the next-best observed value is `5` (observed, larger
than `1`, and smaller than `7`), so the claimed transition to the
next-best observed value fails. -/
theorem windowed_transition_cex :
    GetBest (runUpdates cmpMin 100 [(1, 0), (5, 10), (7, 30)] wmmInit)
      = 1 ∧
    GetBest (runUpdates cmpMin 100 [(1, 0), (5, 10), (7, 30), (9, 101)]
      wmmInit) = 7 ∧
    ((1 : Int) < 5 ∧ (5 : Int) < 7) ∧
    GetBest (runUpdates cmpMin 100 [(1, 0), (5, 10), (7, 30), (9, 101)]
      wmmInit) ≠ 5 := by
  refine ⟨by decide, by decide, by decide, by decide⟩

/-- C8 amended: for a min-seeking estimator with window length `w`, fed a
nonzero value `v` at `t0` and then a run `P` of strictly larger values at
non-decreasing timestamps within one window length of `t0`: `GetBest()`
is `v` after every such in-window update, and at the first update whose
timestamp makes the best sample's age exceed `w`, `GetBest()` transitions
away from `v` to one of the strictly larger values observed during the
run (the new value or a retained backup) — not necessarily the smallest
of them. -/
theorem windowed_scenario (v : Int) (t0 w : Nat) (P : List (Int × Nat))
    (hv : v ≠ 0) (hw64 : t0 + w < U64)
    (hP : ∀ p ∈ P, v < p.1 ∧ p.2 ≤ t0 + w)
    (hchain : List.Chain (fun a b => a ≤ b) t0 (P.map Prod.snd)) :
    GetBest (runUpdates cmpMin w ((v, t0) :: P) wmmInit) = v ∧
    (∀ (u : Int) (t : Nat), v < u →
      List.getLastD (P.map Prod.snd) t0 ≤ t → t < U64 → t0 + w < t →
      v < GetBest (runUpdates cmpMin w ((v, t0) :: (P ++ [(u, t)]))
        wmmInit) ∧
      (GetBest (runUpdates cmpMin w ((v, t0) :: (P ++ [(u, t)]))
          wmmInit) = u ∨
        GetBest (runUpdates cmpMin w ((v, t0) :: (P ++ [(u, t)]))
          wmmInit) ∈ P.map Prod.fst)) := by
  have hfirst : Update cmpMin v t0 w wmmInit =
      Reset { Value := v, Timestamp := t0 } :=
    Update_reset_of_invalid cmpMin v t0 w wmmInit (by decide)
  have hInv0 : ScenInv v t0 (fun x => x ∈ P.map Prod.fst) t0
      (Reset { Value := v, Timestamp := t0 }) :=
    ⟨rfl, fun _ => ⟨rfl, rfl⟩, fun _ => rfl, Or.inl rfl, Or.inl rfl,
     Nat.le_refl t0, Nat.le_refl t0, Nat.le_refl t0, Nat.le_refl t0⟩
  have hrun := scen_run v t0 w (fun x => x ∈ P.map Prod.fst) hv hw64 P
    (Reset { Value := v, Timestamp := t0 }) t0 hInv0
    (fun p hp => ⟨(hP p hp).1, (hP p hp).2,
      List.mem_map_of_mem Prod.fst hp⟩)
    hchain
  have hO : ∀ x, x ∈ P.map Prod.fst → v < x := by
    intro x hx
    obtain ⟨p, hp, hpx⟩ := List.mem_map.mp hx
    rw [← hpx]
    exact (hP p hp).1
  constructor
  · have hstep1 : runUpdates cmpMin w ((v, t0) :: P) wmmInit =
        runUpdates cmpMin w P (Reset { Value := v, Timestamp := t0 }) := by
      show runUpdates cmpMin w P (Update cmpMin v t0 w wmmInit) = _
      rw [hfirst]
    rw [hstep1]
    show (runUpdates cmpMin w P
      (Reset { Value := v, Timestamp := t0 })).s0.Value = v
    rw [hrun.1]
  · intro u t hu hlast ht64u htwu
    have hsplit : runUpdates cmpMin w ((v, t0) :: (P ++ [(u, t)])) wmmInit =
        Update cmpMin u t w (runUpdates cmpMin w P
          (Reset { Value := v, Timestamp := t0 })) := by
      show runUpdates cmpMin w (P ++ [(u, t)])
        (Update cmpMin v t0 w wmmInit) = _
      rw [hfirst]
      simp [runUpdates, List.foldl_append, List.foldl_cons, List.foldl_nil]
    rw [hsplit]
    exact scen_final v t0 w (fun x => x ∈ P.map Prod.fst)
      (List.getLastD (P.map Prod.snd) t0) _ u t hv hrun hu hO hlast
      ht64u htwu

/-- C8 witness: with `v = 1` at time 0, window 100, run `5` at 10 and `7`
at 30, the best stays `1`; at the expiring update `9` at time 101 the
best becomes larger than `1`. -/
theorem windowed_scenario_witness :
    GetBest (runUpdates cmpMin 100 ((1, 0) :: [(5, 10), (7, 30)]) wmmInit)
      = 1 ∧
    1 < GetBest (runUpdates cmpMin 100
      ((1, 0) :: ([(5, 10), (7, 30)] ++ [(9, 101)])) wmmInit) := by
  have h := windowed_scenario 1 0 100 [(5, 10), (7, 30)] (by decide)
    (by norm_num [U64])
    (by decide)
    (List.chain_cons.mpr ⟨by norm_num, List.chain_cons.mpr
      ⟨by norm_num, List.Chain.nil⟩⟩)
  exact ⟨h.1, (h.2 9 101 (by norm_num) (by decide) (by norm_num [U64])
    (by norm_num)).1⟩

end Siamese
